import Mathlib

/-!
Shallow embedding of the `frankencell` crate: a compile-time-checked
interior-mutability library built on const-generic identity tags.

The Rust const generic `const ID : usize` becomes a `Nat` type index on each
structure, so that an access whose token tag differs from the storage tag is
ill-typed in the embedding exactly as it fails to compile in Rust.  Where a
claim speaks about a cross-tag access, a totalized `...Checked` variant makes
the type-level tag comparison explicit and returns `Option`.
-/

namespace Frankencell

/-- Embeds `TokenWith<T, ID>` from `src/tokens.rs`: a token carrying a payload
of type `T`, tagged with the const-generic identity `ID`. -/
structure TokenWith (T : Type) (ID : Nat) where
  payload : T
  deriving DecidableEq, Repr

/-- Embeds `type Token<const ID: usize> = TokenWith<(), ID>` from
`src/tokens.rs`. -/
abbrev Token (ID : Nat) := TokenWith Unit ID

/-- The const-generic identity tag of a token, read off the type index
(`ID` in `TokenWith<T, ID>`). -/
def TokenWith.tag {T : Type} {ID : Nat} (_ : TokenWith T ID) : Nat := ID

/-- Embeds `TokenWith::get` from `src/tokens.rs`: read the attached payload. -/
def TokenWith.get {T : Type} {ID : Nat} (t : TokenWith T ID) : T := t.payload

/-- Embeds `TokenBuilder<ID>` from `src/builder.rs`: a field-less linear value
whose only state is its const-generic tag. -/
structure TokenBuilder (ID : Nat) where
  deriving DecidableEq, Repr

/-- The const-generic identity tag of a builder, read off the type index. -/
def TokenBuilder.tag {ID : Nat} (_ : TokenBuilder ID) : Nat := ID

/-- Embeds `TokenBuilder::token` from `src/builder.rs`:
`(Token::new(()), TokenBuilder::new())` at tags `ID` and `ID + 1`. -/
def TokenBuilder.token {ID : Nat} (_ : TokenBuilder ID) :
    Token ID × TokenBuilder (ID + 1) :=
  (⟨()⟩, ⟨⟩)

/-- Embeds `TokenBuilder::token_with` from `src/builder.rs`:
`(TokenWith::new(u), TokenBuilder::new())` at tags `ID` and `ID + 1`. -/
def TokenBuilder.tokenWith {U : Type} {ID : Nat} (_ : TokenBuilder ID) (u : U) :
    TokenWith U ID × TokenBuilder (ID + 1) :=
  (⟨u⟩, ⟨⟩)

/-- The tags of the first `n` tokens derived from a builder of tag `t` by
repeatedly applying `TokenBuilder.token`. -/
def deriveTags : (n : Nat) → (t : Nat) → TokenBuilder t → List Nat
  | 0, _, _ => []
  | Nat.succ n, t, b => (b.token).1.tag :: deriveTags n (t + 1) (b.token).2

/-- Embeds the `static FIRST: Once` state in `src/lib.rs`: the process-wide
issuance flag, `false` before `first()` has ever run its closure. -/
structure IssuerState where
  issued : Bool
  deriving DecidableEq, Repr

/-- The process state at startup: the `Once` has not fired. -/
def initState : IssuerState := ⟨false⟩

/-- Embeds `first()` from `src/lib.rs`: `FIRST.call_once` sets
`builder = Some(TokenBuilder::new())` only the first time; afterwards the
closure is skipped and `builder` stays `None`. -/
def first (s : IssuerState) : Option (TokenBuilder 0) × IssuerState :=
  if s.issued then (none, s) else (some ⟨⟩, ⟨true⟩)

/-- Runs `first()` `n` times in sequence, collecting the results. -/
def runFirsts : Nat → IssuerState → List (Option (TokenBuilder 0)) × IssuerState
  | 0, s => ([], s)
  | Nat.succ n, s =>
    let r := first s
    let rest := runFirsts n r.2
    (r.1 :: rest.1, rest.2)

/-- Embeds `Cell<T, ID>` from `src/cells.rs`: a `repr(transparent)` wrapper
holding exactly one `T`, tagged with `ID`. -/
structure Cell (T : Type) (ID : Nat) where
  inner : T
  deriving DecidableEq, Repr

/-- Embeds `Cell::new` from `src/cells.rs`. -/
def Cell.new {T : Type} {ID : Nat} (t : T) : Cell T ID :=
  ⟨t⟩

/-- Embeds `Cell::borrow` from `src/cells.rs`: presenting a shared reference to
any token of the same tag (any payload type `U`) yields the contents. -/
def Cell.borrow {T U : Type} {ID : Nat} (c : Cell T ID) (_ : TokenWith U ID) : T :=
  c.inner

/-- Embeds the read access of `Cell::borrow_mut` from `src/cells.rs`: an
exclusive token reference of the same tag yields the contents. -/
def Cell.borrowMut {T U : Type} {ID : Nat} (c : Cell T ID) (_ : TokenWith U ID) : T :=
  c.inner

/-- Embeds `TokenWith::cell` from `src/tokens.rs`: `Cell::new(t)` at the
token's tag, through a shared token reference. -/
def TokenWith.cell {T : Type} {ID : Nat} (_ : TokenWith T ID) (t : T) : Cell T ID :=
  Cell.new t

/-- Embeds the `Debug` impl for `Cell` in `src/cells.rs`, which writes only the
type name and the tag.  `typeName` stands for `std::any::type_name::<T>()`. -/
def Cell.debugFmt {T : Type} {ID : Nat} (typeName : String) (_ : Cell T ID) : String :=
  "Cell<" ++ typeName ++ ", " ++ toString ID ++ ">"

/-- Totalizes the compile-time tag check of `Cell::borrow`: in Rust a borrow
with a token of tag `A` against a cell of tag `B` only compiles when `A = B`;
here the ill-typed combination is represented by `none`. -/
def borrowChecked {T U : Type} {A B : Nat} (c : Cell T B) (_tok : TokenWith U A) :
    Option T :=
  if A = B then some c.inner else none

/-- Embeds `Arena<T, ID>` from `examples/arena.rs`: a push-only vector tagged
with `ID`. -/
structure Arena (T : Type) (ID : Nat) where
  inner : List T
  deriving DecidableEq, Repr

/-- Embeds `type Index<const ID: usize> = TokenWith<usize, ID>` from
`examples/arena.rs`. -/
abbrev Index (ID : Nat) := TokenWith Nat ID

/-- Embeds `impl From<TokenWith<U, ID>> for Arena<T, ID>` from
`examples/arena.rs`: consuming any token of tag `ID` yields the empty arena. -/
def Arena.fromToken {T U : Type} {ID : Nat} (_ : TokenWith U ID) : Arena T ID :=
  ⟨[]⟩

/-- Embeds `Arena::push` from `examples/arena.rs`: `pos = inner.len()`, append
the item, return `Index::new(pos)` together with the grown arena. -/
def Arena.push {T : Type} {ID : Nat} (a : Arena T ID) (item : T) :
    Index ID × Arena T ID :=
  (⟨a.inner.length⟩, ⟨a.inner ++ [item]⟩)

/-- Embeds `Arena::get` from `examples/arena.rs`, with the unchecked element
access `get_unchecked(*index.get())` totalized to an `Option` lookup. -/
def Arena.get {T : Type} {ID : Nat} (a : Arena T ID) (index : Index ID) :
    Option T :=
  a.inner[index.get]?

/-- Embeds the element lookup of `Arena::get_mut` from `examples/arena.rs`,
with `get_unchecked_mut(*index.get())` totalized to an `Option` lookup. -/
def Arena.getMut {T : Type} {ID : Nat} (a : Arena T ID) (index : Index ID) :
    Option T :=
  a.inner[index.get]?

/-- Totalizes the compile-time tag check of `Arena::get`: an index of tag `A`
against an arena of tag `B` only compiles when `A = B`; the ill-typed
combination is represented by `none`. -/
def getChecked {T : Type} {A B : Nat} (a : Arena T B) (idx : Index A) :
    Option T :=
  if A = B then a.inner[idx.get]? else none

/-- Pushes a list of values in order, collecting the issued indexes. -/
def Arena.pushAll {T : Type} {ID : Nat} (a : Arena T ID) :
    List T → Arena T ID × List (Index ID)
  | [] => (a, [])
  | v :: vs =>
    let p := a.push v
    let rest := p.2.pushAll vs
    (rest.1, p.1 :: rest.2)

/-- After `pushAll`, the backing storage is the old storage with the new values
appended in order. -/
theorem Arena.pushAll_fst {T : Type} {ID : Nat} (vs : List T) (a : Arena T ID) :
    (a.pushAll vs).1.inner = a.inner ++ vs := by
  induction vs generalizing a with
  | nil => simp [Arena.pushAll]
  | cons v vs ih =>
    simp [Arena.pushAll, Arena.push, ih]

/-- `pushAll` issues one index per pushed value. -/
theorem Arena.pushAll_snd_length {T : Type} {ID : Nat} (vs : List T)
    (a : Arena T ID) : (a.pushAll vs).2.length = vs.length := by
  induction vs generalizing a with
  | nil => simp [Arena.pushAll]
  | cons v vs ih =>
    simp [Arena.pushAll, ih]

/-- The `i`-th index issued by `pushAll` has position `a.inner.length + i`. -/
theorem Arena.pushAll_snd_getElem {T : Type} {ID : Nat} (vs : List T)
    (a : Arena T ID) (i : Nat) (h : i < vs.length) :
    (a.pushAll vs).2[i]? = some ⟨a.inner.length + i⟩ := by
  induction vs generalizing a i with
  | nil => simp at h
  | cons v vs ih =>
    cases i with
    | zero => simp [Arena.pushAll, Arena.push]
    | succ i =>
      have h2 : i < vs.length := Nat.lt_of_succ_lt_succ h
      simp only [Arena.pushAll, Arena.push, List.getElem?_cons_succ]
      rw [ih _ i h2]
      have hlen : (a.inner ++ [v]).length + i = a.inner.length + (i + 1) := by
        simp [List.length_append]
        omega
      rw [hlen]

/-- Once the issuance flag is set, every further `first` call returns `none`
and leaves the state untouched. -/
theorem runFirsts_issued (n : Nat) :
    runFirsts n ⟨true⟩ = (List.replicate n none, ⟨true⟩) := by
  induction n with
  | zero => rfl
  | succ n ih => simp [runFirsts, first, ih, List.replicate]

/-- None of the replicated `none` results counts as a successful issuance. -/
theorem countP_isSome_replicate_none (m : Nat) :
    List.countP Option.isSome (List.replicate m (none : Option (TokenBuilder 0))) = 0 := by
  induction m with
  | zero => rfl
  | succ m ih => simp [List.replicate, List.countP_cons, ih]

/-- The token chain starting at tag `t` hands out the consecutive tags
`t, t + 1, ...`. -/
theorem deriveTags_eq_range' (n t : Nat) (b : TokenBuilder t) :
    deriveTags n t b = List.range' t n := by
  induction n generalizing t with
  | zero => simp [deriveTags]
  | succ n ih =>
    simp [deriveTags, TokenWith.tag, TokenBuilder.token, List.range'_succ, ih]

/-- C1: the root-issuance entry point `first()` returns `some` builder of tag 0
on the first call in the process and `none` on every subsequent call; the
unissued-to-issued transition is irreversible, so no call sequence produces a
second `some`. -/
theorem first_issues_once (n : Nat) (h : 1 ≤ n) :
    (runFirsts n initState).1 =
      some TokenBuilder.mk :: List.replicate (n - 1) none ∧
    List.countP Option.isSome (runFirsts n initState).1 = 1 ∧
    (first initState).1 = some TokenBuilder.mk ∧
    (∀ b : TokenBuilder 0, b.tag = 0) ∧
    (∀ s : IssuerState, s.issued = true → first s = (none, s)) ∧
    (first initState).2.issued = true := by
  obtain ⟨m, rfl⟩ : ∃ m, n = m + 1 := ⟨n - 1, (Nat.succ_pred_eq_of_pos h).symm⟩
  have hrun : (runFirsts (m + 1) initState).1 =
      some TokenBuilder.mk :: List.replicate m none := by
    simp [runFirsts, first, initState, runFirsts_issued]
  refine ⟨by simpa using hrun, ?_, rfl, fun _ => rfl, ?_, rfl⟩
  · rw [hrun, List.countP_cons]
    simp [countP_isSome_replicate_none]
  · intro s hs
    cases s with
    | mk issued => cases issued with
      | true => rfl
      | false => simp at hs

/-- Concrete instantiation of `first_issues_once` at three calls. -/
theorem first_issues_once_witness :
    (runFirsts 3 initState).1 =
      some TokenBuilder.mk :: List.replicate 2 none :=
  (first_issues_once 3 (by decide)).1

/-- C2: consuming a builder of tag `t` with `token` yields a token tagged `t`
and a builder tagged `t + 1`; `token_with` yields a payload-carrying token
tagged `t` and a builder tagged `t + 1`; deriving `n` successive tokens from
the root builder yields exactly the pairwise-distinct tags `0, ..., n - 1`. -/
theorem token_chain_tags {U : Type} (n t : Nat) (b : TokenBuilder t) (u : U) :
    ((b.token).1.tag = t ∧ (b.token).2.tag = t + 1) ∧
    ((b.tokenWith u).1.tag = t ∧ (b.tokenWith u).1.get = u ∧
      (b.tokenWith u).2.tag = t + 1) ∧
    deriveTags n t b = List.range' t n ∧
    (deriveTags n t b).Nodup ∧
    deriveTags n 0 TokenBuilder.mk = List.range n := by
  refine ⟨⟨rfl, rfl⟩, ⟨rfl, rfl, rfl⟩, deriveTags_eq_range' n t b, ?_, ?_⟩
  · rw [deriveTags_eq_range' n t b]
    exact List.nodup_range' t n
  · rw [deriveTags_eq_range' n 0 TokenBuilder.mk, List.range_eq_range']

/-- C3: constructing `Cell::new(v)` and borrowing it with any token of the
matching tag reads back exactly `v`, the cell's stored value. -/
theorem cell_roundtrip {T U : Type} {ID : Nat} (v : T) (tok : TokenWith U ID) :
    (Cell.new v : Cell T ID).borrow tok = v ∧
    (Cell.new v : Cell T ID).inner = v :=
  ⟨rfl, rfl⟩

/-- C4: for distinct tags `A ≠ B`, presenting a token or index of tag `A` to a
cell or arena of tag `B` fails the type-level tag check (the totalized check
returns `none`), while a matched-tag access never fails at runtime. -/
theorem cross_tag_rejected (A B : Nat) (h : A ≠ B) :
    (∀ (T U : Type) (c : Cell T B) (tok : TokenWith U A),
      borrowChecked c tok = none) ∧
    (∀ (T : Type) (a : Arena T B) (idx : Index A), getChecked a idx = none) ∧
    (∀ (T U : Type) (c : Cell T B) (tok : TokenWith U B),
      borrowChecked c tok = some (c.borrow tok)) ∧
    (∀ (T : Type) (a : Arena T A) (idx : Index A), getChecked a idx = a.get idx) := by
  refine ⟨?_, ?_, ?_, ?_⟩ <;> intros <;>
    simp [borrowChecked, getChecked, h, Cell.borrow, Arena.get]

/-- Concrete instantiation of `cross_tag_rejected`: a tag-0 token presented to
a tag-1 cell is rejected. -/
theorem cross_tag_rejected_witness :
    borrowChecked (Cell.new 5 : Cell Nat 1) (TokenWith.mk () : TokenWith Unit 0) =
      none :=
  (cross_tag_rejected 0 1 (by decide)).1 Nat Unit (Cell.new 5) (TokenWith.mk ())

/-- C5: an index returned by the `i`-th push on a fresh arena still
dereferences, via `get`, to the `i`-th pushed value after any number of
further pushes. -/
theorem arena_index_stable {T U : Type} {ID : Nat} (tok : TokenWith U ID)
    (vs ws : List T) (i : Nat) (idx : Index ID)
    (h : ((Arena.fromToken tok : Arena T ID).pushAll vs).2[i]? = some idx) :
    (((Arena.fromToken tok : Arena T ID).pushAll vs).1.pushAll ws).1.get idx =
      vs[i]? ∧
    ∃ v, vs[i]? = some v := by
  have hlt : i < vs.length := by
    by_contra hge
    rw [List.getElem?_eq_none (by rw [Arena.pushAll_snd_length]; omega)] at h
    exact Option.noConfusion h
  have hsome := Arena.pushAll_snd_getElem vs (Arena.fromToken tok : Arena T ID) i hlt
  rw [h] at hsome
  have hidx : idx = ⟨i⟩ := by
    simpa [Arena.fromToken] using hsome
  subst hidx
  constructor
  · simp only [Arena.get, Arena.pushAll_fst, TokenWith.get, Arena.fromToken,
      List.nil_append, List.append_assoc]
    exact List.getElem?_append_left hlt
  · exact ⟨vs[i], List.getElem?_eq_getElem hlt⟩

/-- Concrete instantiation of `arena_index_stable`: the index for the second
of two pushed values still reads that value after a third push. -/
theorem arena_index_stable_witness :
    (((Arena.fromToken (TokenWith.mk () : Token 0) : Arena Nat 0).pushAll
        [10, 20]).1.pushAll [30]).1.get (TokenWith.mk 1) = [10, 20][1]? ∧
    ∃ v, ([10, 20] : List Nat)[1]? = some v :=
  arena_index_stable (TokenWith.mk ()) [10, 20] [30] 1 (TokenWith.mk 1) (by decide)

/-- The positions handed out by `pushAll` continue from the arena's current
length, one per pushed value. -/
theorem Arena.pushAll_positions {T : Type} {ID : Nat} (vs : List T)
    (a : Arena T ID) :
    (a.pushAll vs).2.map TokenWith.get = List.range' a.inner.length vs.length := by
  induction vs generalizing a with
  | nil => simp [Arena.pushAll]
  | cons v vs ih =>
    simp only [Arena.pushAll, Arena.push, List.map_cons, List.length_cons,
      List.range'_succ, ih]
    simp [TokenWith.get]

/-- C6: starting from the empty arena obtained from a token, the `i`-th push
returns an index at position exactly `i`, so issued positions are the
pairwise-distinct list `0, ..., n - 1`; in general a push mints the position
equal to the arena's current length, distinct from all earlier positions. -/
theorem arena_push_fresh {T U : Type} {ID : Nat} (tok : TokenWith U ID)
    (vs : List T) :
    ((Arena.fromToken tok : Arena T ID).pushAll vs).2.map TokenWith.get =
      List.range vs.length ∧
    (((Arena.fromToken tok : Arena T ID).pushAll vs).2.map TokenWith.get).Nodup ∧
    (∀ (a : Arena T ID) (item : T), (a.push item).1.get = a.inner.length) := by
  have hpos := Arena.pushAll_positions vs (Arena.fromToken tok : Arena T ID)
  have hrange : ((Arena.fromToken tok : Arena T ID).pushAll vs).2.map TokenWith.get =
      List.range vs.length := by
    rw [hpos, List.range_eq_range']
    rfl
  refine ⟨hrange, ?_, fun a item => rfl⟩
  rw [hrange]
  exact List.nodup_range vs.length

/-- C7: for an index minted by a push, after the arena has only grown by
further pushes, the index's position is strictly below the current length, so
the totalized unchecked lookups of `get` and `get_mut` never hit their
out-of-bounds branch and return the pushed value. -/
theorem arena_get_unchecked_safe {T : Type} {ID : Nat} (a0 : Arena T ID)
    (item : T) (ws : List T) :
    (a0.push item).1.get < ((a0.push item).2.pushAll ws).1.inner.length ∧
    ((a0.push item).2.pushAll ws).1.get (a0.push item).1 = some item ∧
    ((a0.push item).2.pushAll ws).1.getMut (a0.push item).1 = some item := by
  have hget : (a0.inner ++ [item] ++ ws)[a0.inner.length]? = some item := by
    rw [List.getElem?_append_left (by simp)]
    exact List.getElem?_concat_length a0.inner item
  refine ⟨?_, ?_, ?_⟩
  · simp only [Arena.push, TokenWith.get, Arena.pushAll_fst, List.length_append,
      List.length_cons, List.length_nil]
    omega
  · simp only [Arena.get, Arena.push, TokenWith.get, Arena.pushAll_fst]
    exact hget
  · simp only [Arena.getMut, Arena.push, TokenWith.get, Arena.pushAll_fst]
    exact hget

/-- C8: constructing a cell through a shared reference to a token
(`TokenWith::cell`) yields exactly the cell produced by `Cell::new` at the
token's tag, independent of the token's payload, storing the given value. -/
theorem make_cell_equiv {T : Type} {ID : Nat} (tok tok2 : TokenWith T ID)
    (v : T) :
    tok.cell v = (Cell.new v : Cell T ID) ∧
    tok.cell v = tok2.cell v ∧
    (tok.cell v).inner = v :=
  ⟨rfl, rfl, rfl⟩

/-- C9: `borrow` and `borrow_mut` accept a token of the matching tag with any
payload type and value; in particular an arena-issued `Index`, being a
`TokenWith` over `usize`, borrows any cell of the same tag, returning its
contents. -/
theorem borrow_any_payload {T S : Type} {ID : Nat} (c : Cell T ID)
    (a : Arena S ID) (item : S) :
    c.borrow (a.push item).1 = c.inner ∧
    c.borrowMut (a.push item).1 = c.inner ∧
    (∀ (U : Type) (tok : TokenWith U ID),
      c.borrow tok = c.inner ∧ c.borrowMut tok = c.inner) :=
  ⟨rfl, rfl, fun _ _ => ⟨rfl, rfl⟩⟩

/-- C10: the debug formatting of a cell writes only the type name and the tag;
any two cells of the same type and tag format identically, whatever values
they hold. -/
theorem debug_ignores_contents {T : Type} {ID : Nat} (typeName : String)
    (c1 c2 : Cell T ID) :
    Cell.debugFmt typeName c1 = Cell.debugFmt typeName c2 ∧
    Cell.debugFmt typeName c1 =
      "Cell<" ++ typeName ++ ", " ++ toString ID ++ ">" :=
  ⟨rfl, rfl⟩

end Frankencell
